import Mathlib

/-!
Shallow embedding of the GridCal primal-dual interior point solver
(`src/GridCalEngine/Utils/IPS/ips.py`) together with proofs about it.

Modelling conventions:
* Dense vectors are `List ℚ` and dense matrices `List (List ℚ)` (row major).
  The IEEE double arithmetic of the source is idealised as exact rational
  arithmetic, except where NaN is decisive: the float division `0.0 / 0`
  performed by the barrier update when `n_ineq = 0` yields NaN in the source
  (numpy emits a warning and produces `nan`, it does not raise), which is
  modelled by `Option ℚ` for the scalar `gamma` (`none` = NaN).
* The external sparse linear solve (`scipy.sparse.linalg.spsolve`) and the
  problem-evaluator callback are parameters of the embedding; the solver
  never inspects their output for failure, exactly as in the source.
* Python runtime failures (negative `np.zeros` size, an out-of-range array
  store, the `UnboundLocalError` at the final `return` when the loop body
  never ran) are modelled by `Except PyError`.
* The diagnostic `print` calls guarded by `verbose` are modelled as a list
  of `Diag` records emitted next to the solution, so that the claim that
  `verbose` does not influence the numerics is a real statement.
-/

namespace GridCalIPS

abbrev Vec := List ℚ

abbrev Mat := List (List ℚ)

/-- Elementwise vector addition (numpy `+` on equal-length dense arrays). -/
def vadd (a b : Vec) : Vec := List.zipWith (fun x y => x + y) a b

/-- Elementwise vector subtraction. -/
def vsub (a b : Vec) : Vec := List.zipWith (fun x y => x - y) a b

/-- Elementwise vector negation (numpy unary `-`). -/
def vneg (a : Vec) : Vec := a.map (fun x => -x)

/-- Scalar times vector (numpy `alpha * v` / `v * alpha`). -/
def smul (c : ℚ) (a : Vec) : Vec := a.map (fun x => c * x)

/-- Elementwise (Hadamard) product (numpy `*`). -/
def vmul (a b : Vec) : Vec := List.zipWith (fun x y => x * y) a b

/-- Dot product (numpy `@` between two 1-D arrays). -/
def vdot (a b : Vec) : ℚ := (List.zipWith (fun x y => x * y) a b).foldl (fun s t => s + t) 0

/-- Vector of ones, `np.ones(n)`. -/
def ones (n : ℕ) : Vec := List.replicate n 1

/-- Number of columns of a row-major dense matrix. -/
def mcols (A : Mat) : ℕ := (A.map List.length).foldr max 0

/-- Matrix transpose. -/
def mtrans (A : Mat) : Mat :=
  (List.range (mcols A)).map (fun j => A.map (fun row => row.getD j 0))

/-- Matrix times vector (numpy `A @ v`). -/
def matVec (A : Mat) (v : Vec) : Vec := A.map (fun row => vdot row v)

/-- Matrix times matrix (numpy `A @ B`). -/
def mmul (A B : Mat) : Mat := A.map (fun row => (mtrans B).map (fun col => vdot row col))

/-- Matrix addition. -/
def madd (A B : Mat) : Mat := List.zipWith vadd A B

/-- Modelled from the spec: the diagonal-from-vector helper `diags` of
`GridCalEngine.Utils.Sparse.csc` (that file is not part of the provided
sources). Spec §4.1: it builds a (sparse) square diagonal matrix from a dense
vector; here it is a dense square matrix with the vector on the diagonal. -/
def diags (v : Vec) : Mat :=
  (List.range v.length).map (fun i =>
    (List.range v.length).map (fun j => if i = j then v.getD i 0 else 0))

/-- Modelled from the spec: the block-assembly helper `pack_3_by_4` of
`GridCalEngine.Utils.Sparse.csc` (not part of the provided sources).
Spec §4.1: given `M`, `Gx` and `Gx^T` it assembles the saddle-point matrix
`[[M, Gx], [Gx^T, 0]]`. -/
def pack_3_by_4 (M Gx GxT : Mat) : Mat :=
  List.zipWith (fun r1 r2 => r1 ++ r2) M Gx ++
    GxT.map (fun row => row ++ List.replicate GxT.length 0)

/-- The fold inside `step_calculation` (ips.py lines 39-43): starting from
`alpha = 1.0`, every component with `dV[i] < 0` lowers `alpha` to at most
`-V[i] / dV[i]`. -/
def stepFold (l : List (ℚ × ℚ)) (a : ℚ) : ℚ :=
  l.foldl (fun alpha p => if p.2 < 0 then min alpha (-p.1 / p.2) else alpha) a

/-- ips.py, `step_calculation` (lines 30-45): the fraction-to-boundary step
rule. `alpha` starts at 1.0, is lowered by each negative component, and the
returned value is `min(0.9999995 * alpha, 1.0)`. -/
def step_calculation (V dV : Vec) : ℚ :=
  min (0.9999995 * stepFold (V.zip dV) 1) 1

/-- ips.py, `split` (lines 48-56). -/
def split (sol : Vec) (n : ℕ) : Vec × Vec := (sol.take n, sol.drop n)

/-- ips.py, `calc_error` (lines 59-77): maximum absolute value over all the
increment vectors, computed by the same running-maximum loop as the source. -/
def calc_error (dx dz dmu dlmbda : Vec) : ℚ :=
  (dx ++ dz ++ dmu ++ dlmbda).foldl (fun err v => if |v| > err then |v| else err) 0

/-- ips.py, `IpsFunctionReturn` (lines 80-113), restricted to the nine fields
the solver reads (the extra passthrough fields `S`, `Sf`, `St` carry no
information used by the iteration). -/
structure IpsFunctionReturn where
  f : ℚ
  G : Vec
  H : Vec
  fx : Vec
  Gx : Mat
  Hx : Mat
  fxx : Mat
  Gxx : Mat
  Hxx : Mat
deriving DecidableEq

/-- ips.py, `IpsSolution` (lines 143-155). -/
structure IpsSolution where
  x : Vec
  error : ℚ
  gamma : Option ℚ
  lam : Vec
  structs : IpsFunctionReturn
  converged : Bool
  iterations : ℤ
  error_evolution : Vec
deriving DecidableEq

/-- Python runtime failures the solver can hit before or instead of
returning: `np.zeros` with a negative size (ValueError), an out-of-range
store into `error_evolution` (IndexError), and the `UnboundLocalError` at the
final `return` when `ret` was never assigned. -/
inductive PyError where
  | valueError
  | indexError
  | unboundLocal
deriving DecidableEq

/-- One diagnostic print record; `interior_point_solver` emits these
according to `verbose` (ips.py lines 282-293 and 302-309). -/
inductive Diag where
  | iterHeader (k : ℤ)
  | iterDetail (x dx lam dlam mu z dmu dz : Vec)
  | iterGammaErr (gamma : Option ℚ) (err : ℚ)
  | summary (x lam : Vec) (fobj err : ℚ) (iters : ℤ)
deriving DecidableEq

/-- The float comparison `error <= gamma` when `gamma` may be NaN: any
comparison against NaN is false. -/
def pyLe (e : ℚ) (g : Option ℚ) : Bool :=
  match g with
  | none => false
  | some gv => decide (e ≤ gv)

/-- Python `max(a, tol)` when `a` may be NaN: `max` keeps its first argument
unless the second compares greater, so `max(nan, tol) = nan`. -/
def pymax (a : Option ℚ) (b : ℚ) : Option ℚ :=
  match a with
  | none => none
  | some av => some (max av b)

/-- The float division `0.1 * (mu @ z) / n_ineq` divides by the Python int
`n_ineq`; `none` models NaN. When `n_ineq = 0`, `mu` and `z` are length-0
arrays, the numerator is the empty dot product `0.0`, and the source's float
arithmetic produces `0.0 / 0 = NaN` (numpy warns, it does not raise). -/
def fdiv (a : ℚ) (n : ℕ) : Option ℚ :=
  if n = 0 then none else some (a / (n : ℚ))

/-- Multiplication `gamma * e` of the possibly-NaN scalar `gamma` with the
all-ones vector `e` of length `n_ineq`. A `none` (NaN) `gamma` only ever
arises when `n_ineq = 0`, in which case `e` is empty and the map is vacuous;
the `0` stand-in in the `none` branch is therefore never used. -/
def gammaSmul (g : Option ℚ) (v : Vec) : Vec :=
  match g with
  | some gv => v.map (fun t => gv * t)
  | none => v.map (fun _ => 0)

/-- The solver state mutated by every loop iteration of
`interior_point_solver`: ips.py lines 222-240. `ret` is the last evaluator
bundle (`none` before the first iteration, when the Python local is still
unbound); the cached `z_inv` and `mu_diag` of the source are recomputed from
`z` and `mu` at their points of use, which the source's refresh discipline
(lines 234-235 and 277-278) makes identical. -/
structure IpsState where
  x : Vec
  lam : Vec
  mu : Vec
  z : Vec
  gamma : Option ℚ
  error : ℚ
  ret : Option IpsFunctionReturn
  iter_counter : ℤ
  error_evolution : Vec
  converged : Bool
deriving DecidableEq

/-- The reduced KKT matrix, ips.py line 247:
`M = fxx + Gxx + Hxx + Hx @ z_inv @ mu_diag @ Hx.T`. -/
def assembleM (ret : IpsFunctionReturn) (z mu : Vec) : Mat :=
  madd (madd (madd ret.fxx ret.Gxx) ret.Hxx)
    (mmul (mmul (mmul ret.Hx (diags (z.map (fun t => 1 / t)))) (diags mu)) (mtrans ret.Hx))

/-- The packed KKT system, ips.py line 248. -/
def assembleJ (ret : IpsFunctionReturn) (z mu : Vec) : Mat :=
  pack_3_by_4 (assembleM ret z mu) ret.Gx (mtrans ret.Gx)

/-- The residual `N`, ips.py line 251:
`N = fx + Hx @ mu + Hx @ z_inv @ (gamma * e + mu * H) + Gx @ lam`. -/
def assembleN (ret : IpsFunctionReturn) (z mu lam : Vec) (gamma : Option ℚ)
    (n_ineq : ℕ) : Vec :=
  vadd
    (vadd (vadd ret.fx (matVec ret.Hx mu))
      (matVec (mmul ret.Hx (diags (z.map (fun t => 1 / t))))
        (vadd (gammaSmul gamma (ones n_ineq)) (vmul mu ret.H))))
    (matVec ret.Gx lam)

/-- The stacked right-hand side `r = -np.r_[N, G]`, ips.py line 252. -/
def assembleR (ret : IpsFunctionReturn) (z mu lam : Vec) (gamma : Option ℚ)
    (n_ineq : ℕ) : Vec :=
  vneg (assembleN ret z mu lam gamma n_ineq ++ ret.G)

/-- The slack increment as the claim states it: `dz = -H - z - Hx^T · dx`
(ips.py line 260). -/
def dz_spec (H z : Vec) (Hx : Mat) (dx : Vec) : Vec :=
  vsub (vsub (vneg H) z) (matVec (mtrans Hx) dx)

/-- The multiplier increment as the claim states it:
`dmu = -mu + diag(1/z) · (gamma·e - mu⊙dz)` (ips.py line 261). -/
def dmu_spec (mu z : Vec) (gamma : Option ℚ) (e : Vec) (dz : Vec) : Vec :=
  vadd (vneg mu)
    (matVec (diags (z.map (fun t => 1 / t))) (vsub (gammaSmul gamma e) (vmul mu dz)))

/-- One body execution of the `while` loop of `interior_point_solver`
(ips.py lines 241-298): evaluator call, KKT assembly, linear solve, step
recovery, fraction-to-boundary steps, state update, barrier update, error and
convergence update, diagnostic prints, iteration-counter increment and
error-trace store. The in-loop store `error_evolution[iter_counter] = error`
is in bounds on every state produced by `interior_point_solver` (the counter
never exceeds `max_iter` and the trace has length `max_iter + 1`), so the
out-of-range no-op of `List.set` is never exercised by a solver run. -/
def iterStep (func : Vec → Vec → Vec → IpsFunctionReturn) (linsolve : Mat → Vec → Vec)
    (n_x n_ineq : ℕ) (tol : ℚ) (verbose : ℤ) (s : IpsState) : IpsState × List Diag :=
  let ret := func s.x s.mu s.lam
  let sol := linsolve (assembleJ ret s.z s.mu) (assembleR ret s.z s.mu s.lam s.gamma n_ineq)
  let dx := (split sol n_x).1
  let dlam := (split sol n_x).2
  let dz := vsub (vsub (vneg ret.H) s.z) (matVec (mtrans ret.Hx) dx)
  let dmu := vadd (vneg s.mu)
    (matVec (diags (s.z.map (fun t => 1 / t)))
      (vsub (gammaSmul s.gamma (ones n_ineq)) (vmul s.mu dz)))
  let alpha_p := step_calculation s.z dz
  let alpha_d := step_calculation s.mu dmu
  let x2 := vadd s.x (smul alpha_p dx)
  let z2 := vadd s.z (smul alpha_p dz)
  let lam2 := vadd s.lam (smul alpha_d dlam)
  let mu2 := vadd s.mu (smul alpha_d dmu)
  let gamma2 := pymax (fdiv ((0.1 : ℚ) * vdot mu2 z2) n_ineq) tol
  let error2 := calc_error dx dz dmu dlam
  let converged2 := pyLe error2 gamma2
  let iter2 := s.iter_counter + 1
  let ev2 := s.error_evolution.set iter2.toNat error2
  let st : IpsState :=
    { x := x2, lam := lam2, mu := mu2, z := z2, gamma := gamma2, error := error2,
      ret := some ret, iter_counter := iter2, error_evolution := ev2,
      converged := converged2 }
  let diag : List Diag :=
    if 1 < verbose then
      Diag.iterHeader s.iter_counter ::
        ((if 2 < verbose then [Diag.iterDetail x2 dx lam2 dlam mu2 z2 dmu dz] else []) ++
          [Diag.iterGammaErr gamma2 error2])
    else []
  (st, diag)

/-- The `while not converged and iter_counter < max_iter` loop of
`interior_point_solver`, driven by the remaining-iteration budget
`max_iter - iter_counter` as fuel. -/
def ipsLoop (func : Vec → Vec → Vec → IpsFunctionReturn) (linsolve : Mat → Vec → Vec)
    (n_x n_ineq : ℕ) (tol : ℚ) (verbose : ℤ) :
    ℕ → IpsState → List Diag → IpsState × List Diag
  | 0, s, log => (s, log)
  | (k + 1), s, log =>
    if s.converged then (s, log)
    else
      ipsLoop func linsolve n_x n_ineq tol verbose k
        (iterStep func linsolve n_x n_ineq tol verbose s).1
        (log ++ (iterStep func linsolve n_x n_ineq tol verbose s).2)

/-- The sentinel initial error, ips.py line 223 (`error = 1e20`). -/
def oneE20 : ℚ := 10 ^ 20

/-- The solver state right before the loop, ips.py lines 222-240: `x` is a
(value) copy of `x0`, the multipliers and slacks are all-ones vectors,
`gamma = 1`, `error = 1e20`, and `converged = (1e20 <= 1.0)`. -/
def initState (x0 : Vec) (n_eq n_ineq : ℕ) (ev : Vec) : IpsState :=
  { x := x0, lam := ones n_eq, mu := ones n_ineq, z := ones n_ineq,
    gamma := some 1, error := oneE20, ret := none, iter_counter := 0,
    error_evolution := ev, converged := pyLe oneE20 (some 1) }

/-- `np.zeros(n)` for a Python-int size: a negative size raises ValueError. -/
def npZeros (n : ℤ) : Except PyError Vec :=
  if n < 0 then Except.error PyError.valueError
  else Except.ok (List.replicate n.toNat 0)

/-- The store `error_evolution[0] = error` (ips.py line 240): an index at or
beyond the array length raises IndexError. -/
def npSet (v : Vec) (i : ℕ) (val : ℚ) : Except PyError Vec :=
  if i < v.length then Except.ok (v.set i val) else Except.error PyError.indexError

/-- The summary block printed after the loop when `verbose > 0`
(ips.py lines 302-309); the printed objective is the stale `f = 0.0` of line
225, never refreshed from the last bundle. -/
def summaryLog (verbose : ℤ) (s : IpsState) : List Diag :=
  if 0 < verbose then [Diag.summary s.x s.lam 0 s.error s.iter_counter] else []

/-- The final `return IpsSolution(...)` of ips.py lines 311-312: when the
loop body never ran, the local `ret` is unbound and the return statement
raises `UnboundLocalError`. -/
def mkResult (verbose : ℤ) (p : IpsState × List Diag) :
    Except PyError (IpsSolution × List Diag) :=
  match p.1.ret with
  | none => Except.error PyError.unboundLocal
  | some r =>
    Except.ok
      ({ x := p.1.x, error := p.1.error, gamma := p.1.gamma, lam := p.1.lam,
         structs := r, converged := p.1.converged, iterations := p.1.iter_counter,
         error_evolution := p.1.error_evolution }, p.2 ++ summaryLog verbose p.1)

/-- ips.py, `interior_point_solver` (lines 169-312). The evaluator callback
`func` (with its `arg` tuple already applied) and the sparse linear solve
`linsolve` (`scipy.sparse.linalg.spsolve`) are parameters; `max_iter` is a
Python int. The result is the `IpsSolution` record together with the list of
diagnostic prints, or the Python runtime error the call raises. -/
def interior_point_solver (x0 : Vec) (n_x n_eq n_ineq : ℕ)
    (func : Vec → Vec → Vec → IpsFunctionReturn) (linsolve : Mat → Vec → Vec)
    (max_iter : ℤ) (tol : ℚ) (verbose : ℤ) :
    Except PyError (IpsSolution × List Diag) :=
  (npZeros (max_iter + 1)).bind (fun ev0 =>
    (npSet ev0 0 oneE20).bind (fun ev =>
      mkResult verbose
        (ipsLoop func linsolve n_x n_ineq tol verbose max_iter.toNat
          (initState x0 n_eq n_ineq ev) [])))

/-- The error-evolution array right before the loop, for a non-negative
iteration budget: `np.zeros(max_iter + 1)` with `1e20` stored at index 0. -/
def initEv (max_iter : ℤ) : Vec :=
  (List.replicate (max_iter + 1).toNat (0 : ℚ)).set 0 oneE20

/-- A heap of dense arrays, used to model the aliasing behaviour of the
caller-supplied `x0`: cells are arrays, references are indices. -/
structure Heap where
  cells : List Vec
deriving DecidableEq

/-- Read the array behind a reference. -/
def heapGet (h : Heap) (r : ℕ) : Vec := h.cells.getD r []

/-- `x0.copy()` (ips.py line 226): allocate a fresh cell holding a copy of
the referenced array and return its (fresh) reference. -/
def heapAllocCopy (h : Heap) (r : ℕ) : Heap × ℕ :=
  (⟨h.cells ++ [heapGet h r]⟩, h.cells.length)

/-- The in-place update `x += d` (ips.py line 268) on the cell behind `r`. -/
def heapAddInPlace (h : Heap) (r : ℕ) (d : Vec) : Heap :=
  ⟨h.cells.set r (vadd (heapGet h r) d)⟩

/-- The x-array handling of `interior_point_solver` at the level of array
references: line 226 `x = x0.copy()` allocates a fresh array holding a copy
of the caller's `x0`, and the in-place `x += dx * alpha_p` of line 268 writes
that fresh array once per iteration. `steps` is the per-iteration list of
increments `dx * alpha_p` (their values are irrelevant to the frame
property). Returns the final heap and the reference handed back as the
solution's `x`. -/
def xHeapRun (h : Heap) (x0ref : ℕ) (steps : List Vec) : Heap × ℕ :=
  let p := heapAllocCopy h x0ref
  (steps.foldl (fun hh d => heapAddInPlace hh p.2 d) p.1, p.2)

/-- The list of ratios `-V[i] / dV[i]` over the components with `dV[i] < 0`,
in order. -/
def negRatios (V dV : Vec) : List ℚ :=
  ((V.zip dV).filter (fun p => decide (p.2 < 0))).map (fun p => -p.1 / p.2)

/-- The quantity `m` of the claim about `step_calculation`: the minimum of
`-V[i] / dV[i]` over the components with `dV[i] < 0`, and `1` when no
component of `dV` is negative. -/
def ratioMin (V dV : Vec) : ℚ :=
  match negRatios V dV with
  | [] => 1
  | r :: rs => rs.foldl min r

/-- A minimal one-variable, one-inequality evaluator bundle, used to
instantiate the solver at a concrete input. -/
def oneBundle : IpsFunctionReturn :=
  { f := 0, G := [], H := [0], fx := [0], Gx := [[]], Hx := [[0]],
    fxx := [[0]], Gxx := [[0]], Hxx := [[0]] }

/-- A constant evaluator callback returning `oneBundle`. -/
def oneEval : Vec → Vec → Vec → IpsFunctionReturn := fun _ _ _ => oneBundle

/-- A linear-solve oracle returning the zero vector of length 1. -/
def oneSolve : Mat → Vec → Vec := fun _ _ => [0]

/-- A linear-solve oracle standing in for `spsolve` on a singular system:
it ignores the matrix and returns a garbage vector, as `spsolve` returns a
NaN vector (with only a `MatrixRankWarning`) on a singular input. -/
def junkSolve : Mat → Vec → Vec := fun _ _ => [1000000]

lemma except_bind_ok {A B : Type} (a : A) (f : A → Except PyError B) :
    (Except.ok a : Except PyError A).bind f = f a := rfl

lemma except_bind_error {A B : Type} (e : PyError) (f : A → Except PyError B) :
    (Except.error e : Except PyError A).bind f = Except.error e := rfl

lemma stepFold_nil (a : ℚ) : stepFold [] a = a := rfl

lemma stepFold_cons (p : ℚ × ℚ) (l : List (ℚ × ℚ)) (a : ℚ) :
    stepFold (p :: l) a = stepFold l (if p.2 < 0 then min a (-p.1 / p.2) else a) := rfl

lemma stepFold_le_init : ∀ (l : List (ℚ × ℚ)) (a : ℚ), stepFold l a ≤ a := by
  intro l
  induction l with
  | nil => intro a; exact le_refl a
  | cons p l ih =>
    intro a
    rw [stepFold_cons]
    by_cases hp : p.2 < 0
    · rw [if_pos hp]
      exact le_trans (ih _) (min_le_left _ _)
    · rw [if_neg hp]
      exact ih a

lemma stepFold_le_ratio : ∀ (l : List (ℚ × ℚ)) (a : ℚ) (p : ℚ × ℚ),
    p ∈ l → p.2 < 0 → stepFold l a ≤ -p.1 / p.2 := by
  intro l
  induction l with
  | nil => intro a p hp; exact absurd hp (List.not_mem_nil p)
  | cons q l ih =>
    intro a p hp hneg
    rcases List.mem_cons.mp hp with h | h
    · subst h
      rw [stepFold_cons, if_pos hneg]
      exact le_trans (stepFold_le_init _ _) (min_le_right _ _)
    · rw [stepFold_cons]
      exact ih _ p h hneg

lemma stepFold_pos : ∀ (l : List (ℚ × ℚ)) (a : ℚ),
    (∀ p ∈ l, p.2 < 0 → 0 < -p.1 / p.2) → 0 < a → 0 < stepFold l a := by
  intro l
  induction l with
  | nil => intro a _ ha; exact ha
  | cons q l ih =>
    intro a h ha
    rw [stepFold_cons]
    by_cases hq : q.2 < 0
    · rw [if_pos hq]
      exact ih _ (fun p hp => h p (List.mem_cons_of_mem q hp))
        (lt_min ha (h q (List.mem_cons_self q l) hq))
    · rw [if_neg hq]
      exact ih _ (fun p hp => h p (List.mem_cons_of_mem q hp)) ha

lemma stepFold_eq_foldl_min : ∀ (l : List (ℚ × ℚ)) (a : ℚ),
    stepFold l a
      = ((l.filter (fun p => decide (p.2 < 0))).map (fun p => -p.1 / p.2)).foldl min a := by
  intro l
  induction l with
  | nil => intro a; rfl
  | cons q l ih =>
    intro a
    by_cases hq : q.2 < 0
    · simp only [stepFold, List.foldl_cons, if_pos hq, List.filter_cons, decide_eq_true hq,
        List.map_cons]
      exact ih (min a (-q.1 / q.2))
    · simp only [stepFold, List.foldl_cons, if_neg hq, List.filter_cons]
      rw [if_neg (by simpa using hq)]
      exact ih a

lemma foldl_min_comm (a : ℚ) :
    ∀ (l : List ℚ) (b : ℚ), l.foldl min (min a b) = min a (l.foldl min b) := by
  intro l
  induction l with
  | nil => intro b; rfl
  | cons c l ih =>
    intro b
    simp only [List.foldl_cons]
    rw [min_assoc, ih]

lemma stepFold_one_eq (V dV : Vec) :
    stepFold (V.zip dV) 1 = min 1 (ratioMin V dV) := by
  rw [stepFold_eq_foldl_min]
  show (negRatios V dV).foldl min 1 = min 1 (ratioMin V dV)
  cases h : negRatios V dV with
  | nil => simp [ratioMin, h]
  | cons r rs =>
    have hr : ratioMin V dV = rs.foldl min r := by
      unfold ratioMin
      rw [h]
    rw [hr, List.foldl_cons]
    exact foldl_min_comm 1 rs r

lemma ratioMin_pos (V dV : Vec) (h : ∀ v ∈ V, 0 < v) : 0 < min 1 (ratioMin V dV) := by
  rw [← stepFold_one_eq]
  apply stepFold_pos _ _ ?_ one_pos
  intro p hp hneg
  have h1 : 0 < p.1 := h p.1 (List.of_mem_zip hp).1
  have h2 : 0 < -p.2 := neg_pos.mpr hneg
  have h3 : 0 < p.1 / -p.2 := div_pos h1 h2
  rw [div_neg] at h3
  rw [neg_div]
  exact h3

lemma step_calculation_pos (V dV : Vec) (h : ∀ v ∈ V, 0 < v) :
    0 < step_calculation V dV := by
  unfold step_calculation
  refine lt_min ?_ one_pos
  rw [stepFold_one_eq]
  exact mul_pos (by norm_num) (ratioMin_pos V dV h)

lemma step_calculation_le (V dV : Vec) (p : ℚ × ℚ) (hmem : p ∈ V.zip dV)
    (hneg : p.2 < 0) : step_calculation V dV ≤ 0.9999995 * (-p.1 / p.2) := by
  unfold step_calculation
  refine le_trans (min_le_left _ _) ?_
  exact mul_le_mul_of_nonneg_left (stepFold_le_ratio _ _ p hmem hneg) (by norm_num)

lemma vadd_smul_mem : ∀ (V dV : Vec) (c w : ℚ), w ∈ vadd V (smul c dV) →
    ∃ p, p ∈ V.zip dV ∧ w = p.1 + c * p.2 := by
  intro V
  induction V with
  | nil => intro dV c w hw; simp [vadd] at hw
  | cons a V ih =>
    intro dV c w hw
    cases dV with
    | nil => simp [vadd, smul] at hw
    | cons b dV =>
      simp only [vadd, smul, List.map_cons, List.zipWith_cons_cons, List.mem_cons] at hw
      rcases hw with h | h
      · exact ⟨(a, b), List.mem_cons_self _ _, h⟩
      · obtain ⟨p, hp, he⟩ := ih dV c w h
        exact ⟨p, List.mem_cons_of_mem _ hp, he⟩

/-- The fraction-to-boundary safety margin: if every entry of `V` is
positive, every entry of `V + step_calculation(V, dV) * dV` is still
(strictly) positive, whatever the increment `dV` is. -/
lemma update_pos (V dV : Vec) (h : ∀ v ∈ V, 0 < v) :
    ∀ w ∈ vadd V (smul (step_calculation V dV) dV), 0 < w := by
  intro w hw
  obtain ⟨p, hp, rfl⟩ := vadd_smul_mem V dV _ w hw
  have hp1 : 0 < p.1 := h p.1 (List.of_mem_zip hp).1
  by_cases hneg : p.2 < 0
  · have hle := step_calculation_le V dV p hp hneg
    have h2 : p.2 ≠ 0 := ne_of_lt hneg
    have key : 0.9999995 * (-p.1 / p.2) * p.2 ≤ step_calculation V dV * p.2 :=
      mul_le_mul_of_nonpos_right hle (le_of_lt hneg)
    have heq : 0.9999995 * (-p.1 / p.2) * p.2 = -(0.9999995 * p.1) := by
      rw [mul_assoc, div_mul_cancel₀ _ h2, mul_neg]
    rw [heq] at key
    linarith
  · have hc := step_calculation_pos V dV h
    have : 0 ≤ step_calculation V dV * p.2 :=
      mul_nonneg (le_of_lt hc) (not_lt.mp hneg)
    linarith

section LoopLemmas

variable (func : Vec → Vec → Vec → IpsFunctionReturn) (linsolve : Mat → Vec → Vec)
variable (n_x n_ineq : ℕ) (tol : ℚ) (verbose : ℤ)

lemma iterStep_shape (s : IpsState) :
    ∃ dz dmu,
      (iterStep func linsolve n_x n_ineq tol verbose s).1.z
          = vadd s.z (smul (step_calculation s.z dz) dz)
        ∧ (iterStep func linsolve n_x n_ineq tol verbose s).1.mu
          = vadd s.mu (smul (step_calculation s.mu dmu) dmu) :=
  ⟨_, _, rfl, rfl⟩

lemma iterStep_gamma (s : IpsState) :
    (iterStep func linsolve n_x n_ineq tol verbose s).1.gamma
      = pymax (fdiv ((0.1 : ℚ) * vdot (iterStep func linsolve n_x n_ineq tol verbose s).1.mu
          (iterStep func linsolve n_x n_ineq tol verbose s).1.z) n_ineq) tol := rfl

lemma iterStep_conv (s : IpsState) :
    (iterStep func linsolve n_x n_ineq tol verbose s).1.converged
      = pyLe (iterStep func linsolve n_x n_ineq tol verbose s).1.error
          (iterStep func linsolve n_x n_ineq tol verbose s).1.gamma := rfl

lemma iterStep_ret (s : IpsState) :
    (iterStep func linsolve n_x n_ineq tol verbose s).1.ret = some (func s.x s.mu s.lam) := rfl

lemma iterStep_counter (s : IpsState) :
    (iterStep func linsolve n_x n_ineq tol verbose s).1.iter_counter = s.iter_counter + 1 := rfl

lemma iterStep_fst_verbose (v1 v2 : ℤ) (s : IpsState) :
    (iterStep func linsolve n_x n_ineq tol v1 s).1
      = (iterStep func linsolve n_x n_ineq tol v2 s).1 := rfl

lemma ipsLoop_zero (s : IpsState) (log : List Diag) :
    ipsLoop func linsolve n_x n_ineq tol verbose 0 s log = (s, log) := rfl

lemma ipsLoop_succ (k : ℕ) (s : IpsState) (log : List Diag) :
    ipsLoop func linsolve n_x n_ineq tol verbose (k + 1) s log
      = if s.converged then (s, log)
        else ipsLoop func linsolve n_x n_ineq tol verbose k
          (iterStep func linsolve n_x n_ineq tol verbose s).1
          (log ++ (iterStep func linsolve n_x n_ineq tol verbose s).2) := rfl

lemma ipsLoop_pres (P : IpsState → Prop)
    (hstep : ∀ s, P s → P (iterStep func linsolve n_x n_ineq tol verbose s).1) :
    ∀ (k : ℕ) (s : IpsState) (log : List Diag),
      P s → P (ipsLoop func linsolve n_x n_ineq tol verbose k s log).1 := by
  intro k
  induction k with
  | zero => intro s log h; exact h
  | succ k ih =>
    intro s log h
    rw [ipsLoop_succ]
    by_cases hc : s.converged
    · rw [if_pos hc]; exact h
    · rw [if_neg hc]; exact ih _ _ (hstep s h)

lemma ipsLoop_counter :
    ∀ (k : ℕ) (s : IpsState) (log : List Diag),
      (ipsLoop func linsolve n_x n_ineq tol verbose k s log).1.iter_counter
        ≤ s.iter_counter + k := by
  intro k
  induction k with
  | zero => intro s log; simp [ipsLoop_zero]
  | succ k ih =>
    intro s log
    rw [ipsLoop_succ]
    by_cases hc : s.converged
    · rw [if_pos hc]
      show s.iter_counter ≤ s.iter_counter + ((k : ℤ) + 1)
      omega
    · rw [if_neg hc]
      refine le_trans (ih _ _) ?_
      rw [iterStep_counter]
      omega

lemma ipsLoop_fst_verbose (v1 v2 : ℤ) :
    ∀ (k : ℕ) (s : IpsState) (log1 log2 : List Diag),
      (ipsLoop func linsolve n_x n_ineq tol v1 k s log1).1
        = (ipsLoop func linsolve n_x n_ineq tol v2 k s log2).1 := by
  intro k
  induction k with
  | zero => intro s log1 log2; rfl
  | succ k ih =>
    intro s log1 log2
    rw [ipsLoop_succ, ipsLoop_succ]
    by_cases hc : s.converged
    · rw [if_pos hc, if_pos hc]
    · rw [if_neg hc, if_neg hc]
      rw [iterStep_fst_verbose func linsolve n_x n_ineq tol v1 v2 s]
      exact ih _ _ _

lemma pyLe_oneE20 : pyLe oneE20 (some 1) = false := by
  show decide (oneE20 ≤ 1) = false
  rw [decide_eq_false_iff_not, oneE20]
  norm_num

lemma initState_converged (x0 : Vec) (n_eq n_ineq : ℕ) (ev : Vec) :
    (initState x0 n_eq n_ineq ev).converged = false := by
  show pyLe oneE20 (some 1) = false
  exact pyLe_oneE20

lemma initState_conv_eq (x0 : Vec) (n_eq n_ineq : ℕ) (ev : Vec) :
    (initState x0 n_eq n_ineq ev).converged
      = pyLe (initState x0 n_eq n_ineq ev).error (initState x0 n_eq n_ineq ev).gamma := by
  have h1 : (initState x0 n_eq n_ineq ev).error = oneE20 := rfl
  have h2 : (initState x0 n_eq n_ineq ev).gamma = some 1 := rfl
  rw [h1, h2]
  rfl

lemma ipsLoop_ret_some (k : ℕ) (s : IpsState) (log : List Diag)
    (h : ∃ r, s.ret = some r) :
    ∃ r, (ipsLoop func linsolve n_x n_ineq tol verbose k s log).1.ret = some r := by
  refine ipsLoop_pres func linsolve n_x n_ineq tol verbose
    (fun s => ∃ r, s.ret = some r) ?_ k s log h
  intro s _
  exact ⟨func s.x s.mu s.lam, iterStep_ret func linsolve n_x n_ineq tol verbose s⟩

end LoopLemmas

section SolverLemmas

variable (x0 : Vec) (n_x n_eq n_ineq : ℕ)
variable (func : Vec → Vec → Vec → IpsFunctionReturn) (linsolve : Mat → Vec → Vec)
variable (max_iter : ℤ) (tol : ℚ) (verbose : ℤ)

lemma solver_run_of_pos (h : 1 ≤ max_iter) :
    interior_point_solver x0 n_x n_eq n_ineq func linsolve max_iter tol verbose
      = mkResult verbose
          (ipsLoop func linsolve n_x n_ineq tol verbose max_iter.toNat
            (initState x0 n_eq n_ineq (initEv max_iter)) []) := by
  unfold interior_point_solver
  have hz : npZeros (max_iter + 1)
      = Except.ok (List.replicate (max_iter + 1).toNat (0 : ℚ)) := by
    unfold npZeros
    rw [if_neg (by omega)]
  have hs : npSet (List.replicate (max_iter + 1).toNat (0 : ℚ)) 0 oneE20
      = Except.ok (initEv max_iter) := by
    unfold npSet initEv
    rw [if_pos (by simp; omega)]
  rw [hz, except_bind_ok, hs, except_bind_ok]

lemma solver_returns_ok (h : 1 ≤ max_iter) :
    ∃ sol log,
      interior_point_solver x0 n_x n_eq n_ineq func linsolve max_iter tol verbose
        = Except.ok (sol, log)
      ∧ sol.iterations ≤ max_iter
      ∧ sol.converged = pyLe sol.error sol.gamma
      ∧ sol.gamma = (ipsLoop func linsolve n_x n_ineq tol verbose max_iter.toNat
          (initState x0 n_eq n_ineq (initEv max_iter)) []).1.gamma := by
  rw [solver_run_of_pos x0 n_x n_eq n_ineq func linsolve max_iter tol verbose h]
  set s0 := initState x0 n_eq n_ineq (initEv max_iter) with hs0
  obtain ⟨k, hk⟩ : ∃ k, max_iter.toNat = k + 1 := ⟨(max_iter - 1).toNat, by omega⟩
  set p := ipsLoop func linsolve n_x n_ineq tol verbose max_iter.toNat s0 [] with hp
  have hret : ∃ r, p.1.ret = some r := by
    rw [hp, hk, ipsLoop_succ, if_neg (by rw [hs0, initState_converged]; exact Bool.false_ne_true)]
    refine ipsLoop_ret_some func linsolve n_x n_ineq tol verbose k _ _ ?_
    exact ⟨_, iterStep_ret func linsolve n_x n_ineq tol verbose s0⟩
  obtain ⟨r, hr⟩ := hret
  have hconv : p.1.converged = pyLe p.1.error p.1.gamma := by
    refine ipsLoop_pres func linsolve n_x n_ineq tol verbose
      (fun s => s.converged = pyLe s.error s.gamma) ?_ _ _ _ ?_
    · intro s _
      exact iterStep_conv func linsolve n_x n_ineq tol verbose s
    · rw [hs0]
      exact initState_conv_eq x0 n_eq n_ineq (initEv max_iter)
  have hcount : p.1.iter_counter ≤ max_iter := by
    have := ipsLoop_counter func linsolve n_x n_ineq tol verbose max_iter.toNat s0 []
    rw [← hp] at this
    have h0 : s0.iter_counter = 0 := by rw [hs0]; rfl
    rw [h0] at this
    omega
  refine ⟨{ x := p.1.x, error := p.1.error, gamma := p.1.gamma, lam := p.1.lam,
            structs := r, converged := p.1.converged, iterations := p.1.iter_counter,
            error_evolution := p.1.error_evolution },
          p.2 ++ summaryLog verbose p.1, ?_, hcount, hconv, rfl⟩
  unfold mkResult
  rw [hr]

end SolverLemmas

/-- C1, counterexample: at `V = [1.0, 2.0]`, `dV = [-0.5, 1.0]` the source's
`step_calculation` returns `0.9999995`, not the claimed `1.0`: the safety
factor is applied after the cap `min(1, ·)` of the running `alpha`, not
before it as the claim's formula `min(1.0, 0.9999995 * m)` would have it. -/
theorem ips_C1_cex :
    step_calculation [1, 2] [-(1 / 2), 1] ≠ 1
      ∧ step_calculation [1, 2] [-(1 / 2), 1] = 0.9999995 := by
  have h : step_calculation [1, 2] [-(1 / 2), 1] = 0.9999995 := by
    norm_num [step_calculation, stepFold, List.zip, List.zipWith, min_def]
  constructor
  · rw [h]; norm_num
  · exact h

/-- C1, amended: for every positive `V` and every `dV` of the same length,
`step_calculation(V, dV)` returns `min(0.9999995 * min(1, m), 1)`, which
equals `0.9999995 * min(1, m)`, where `m` (`ratioMin`) is the minimum of
`-V[i]/dV[i]` over the components with `dV[i] < 0` and `1` when no component
of `dV` is negative (including when `dV` is empty); in particular
`step_calculation([1.0, 2.0], [-0.5, 1.0]) = 0.9999995`, not `1.0`. -/
theorem ips_C1_amended (V dV : Vec) (hlen : V.length = dV.length)
    (hpos : ∀ v ∈ V, 0 < v) :
    step_calculation V dV = min (0.9999995 * min 1 (ratioMin V dV)) 1
      ∧ step_calculation V dV = 0.9999995 * min 1 (ratioMin V dV) := by
  have h1 : step_calculation V dV = min (0.9999995 * min 1 (ratioMin V dV)) 1 := by
    unfold step_calculation
    rw [stepFold_one_eq]
  refine ⟨h1, ?_⟩
  rw [h1]
  apply min_eq_left
  have h2 : min 1 (ratioMin V dV) ≤ 1 := min_le_left _ _
  calc (0.9999995 : ℚ) * min 1 (ratioMin V dV) ≤ 0.9999995 * 1 :=
        mul_le_mul_of_nonneg_left h2 (by norm_num)
    _ ≤ 1 := by norm_num

/-- C1, witness for the amended statement at the concrete input of the
claim. -/
theorem ips_C1_witness :
    ([1, 2] : Vec).length = ([-(1 / 2), 1] : Vec).length
      ∧ (∀ v ∈ ([1, 2] : Vec), 0 < v)
      ∧ step_calculation [1, 2] [-(1 / 2), 1]
          = min (0.9999995 * min 1 (ratioMin [1, 2] [-(1 / 2), 1])) 1 :=
  ⟨rfl, by decide, (ips_C1_amended [1, 2] [-(1 / 2), 1] rfl (by decide)).1⟩

/-- C5: in every iteration, after the linear solve splits into `dx` and
`dlam`, the increments are `dz = -H - z - Hx^T·dx` and
`dmu = -mu + diag(1/z)·(gamma·e - mu⊙dz)`, and the state is updated as
`x += alpha_p·dx`, `z += alpha_p·dz`, `lam += alpha_d·dlam`,
`mu += alpha_d·dmu` with `alpha_p = step_calculation(z, dz)` and
`alpha_d = step_calculation(mu, dmu)`. -/
theorem ips_C5 (func : Vec → Vec → Vec → IpsFunctionReturn)
    (linsolve : Mat → Vec → Vec) (n_x n_ineq : ℕ) (tol : ℚ) (verbose : ℤ)
    (s : IpsState) :
    let ret := func s.x s.mu s.lam
    let sol := linsolve (assembleJ ret s.z s.mu)
      (assembleR ret s.z s.mu s.lam s.gamma n_ineq)
    let dx := (split sol n_x).1
    let dlam := (split sol n_x).2
    let dz := dz_spec ret.H s.z ret.Hx dx
    let dmu := dmu_spec s.mu s.z s.gamma (ones n_ineq) dz
    let alpha_p := step_calculation s.z dz
    let alpha_d := step_calculation s.mu dmu
    (iterStep func linsolve n_x n_ineq tol verbose s).1.x = vadd s.x (smul alpha_p dx)
      ∧ (iterStep func linsolve n_x n_ineq tol verbose s).1.z = vadd s.z (smul alpha_p dz)
      ∧ (iterStep func linsolve n_x n_ineq tol verbose s).1.lam = vadd s.lam (smul alpha_d dlam)
      ∧ (iterStep func linsolve n_x n_ineq tol verbose s).1.mu = vadd s.mu (smul alpha_d dmu) :=
  ⟨rfl, rfl, rfl, rfl⟩

lemma iterStep_pos (func : Vec → Vec → Vec → IpsFunctionReturn)
    (linsolve : Mat → Vec → Vec) (n_x n_ineq : ℕ) (tol : ℚ) (verbose : ℤ)
    (s : IpsState) (h : (∀ v ∈ s.z, 0 < v) ∧ (∀ v ∈ s.mu, 0 < v)) :
    (∀ v ∈ (iterStep func linsolve n_x n_ineq tol verbose s).1.z, 0 < v)
      ∧ (∀ v ∈ (iterStep func linsolve n_x n_ineq tol verbose s).1.mu, 0 < v) := by
  obtain ⟨dz, dmu, hz, hmu⟩ := iterStep_shape func linsolve n_x n_ineq tol verbose s
  rw [hz, hmu]
  exact ⟨update_pos s.z dz h.1, update_pos s.mu dmu h.2⟩

/-- C2: starting from the all-ones initialization of `z` and `mu`, after
every iteration's fraction-to-boundary-scaled update — i.e. in the state
reached after any number `k` of loop steps — every entry of `z` is strictly
positive and every entry of `mu` is non-negative. -/
theorem ips_C2 (x0 : Vec) (n_x n_eq n_ineq : ℕ)
    (func : Vec → Vec → Vec → IpsFunctionReturn) (linsolve : Mat → Vec → Vec)
    (tol : ℚ) (verbose : ℤ) (ev : Vec) (k : ℕ) :
    (∀ v ∈ (ipsLoop func linsolve n_x n_ineq tol verbose k
        (initState x0 n_eq n_ineq ev) []).1.z, 0 < v)
      ∧ (∀ v ∈ (ipsLoop func linsolve n_x n_ineq tol verbose k
          (initState x0 n_eq n_ineq ev) []).1.mu, 0 ≤ v) := by
  have h := ipsLoop_pres func linsolve n_x n_ineq tol verbose
    (fun s => (∀ v ∈ s.z, 0 < v) ∧ (∀ v ∈ s.mu, 0 < v))
    (iterStep_pos func linsolve n_x n_ineq tol verbose) k
    (initState x0 n_eq n_ineq ev) [] ?_
  · exact ⟨h.1, fun v hv => le_of_lt (h.2 v hv)⟩
  · constructor
    · intro v hv
      rw [List.eq_of_mem_replicate hv]
      exact one_pos
    · intro v hv
      rw [List.eq_of_mem_replicate hv]
      exact one_pos

/-- C2, witness: the positivity invariant instantiated at a concrete
one-inequality problem and the initial state (where `z = [1]`). -/
theorem ips_C2_witness :
    (1 : ℚ) ∈ (ipsLoop oneEval oneSolve 1 1 (1 / 1000000) 0 0
        (initState [0] 0 1 (initEv 1)) []).1.z
      ∧ 0 < (1 : ℚ) :=
  ⟨List.mem_singleton.mpr rfl,
    (ips_C2 [0] 1 0 1 oneEval oneSolve (1 / 1000000) 0 (initEv 1) 0).1 1
      (List.mem_singleton.mpr rfl)⟩

lemma iterStep_gamma_ge (func : Vec → Vec → Vec → IpsFunctionReturn)
    (linsolve : Mat → Vec → Vec) (n_x n_ineq : ℕ) (tol : ℚ) (verbose : ℤ)
    (hn : n_ineq ≠ 0) (s : IpsState) :
    ∃ g, (iterStep func linsolve n_x n_ineq tol verbose s).1.gamma = some g ∧ tol ≤ g := by
  rw [iterStep_gamma]
  unfold fdiv
  rw [if_neg hn]
  exact ⟨_, rfl, le_max_right _ _⟩

lemma mkResult_ok_inv (verbose : ℤ) (p : IpsState × List Diag) (sol : IpsSolution)
    (log : List Diag) (h : mkResult verbose p = Except.ok (sol, log)) :
    (∃ r, p.1.ret = some r) ∧ sol.gamma = p.1.gamma ∧ sol.converged = p.1.converged := by
  unfold mkResult at h
  cases hr : p.1.ret with
  | none => rw [hr] at h; simp at h
  | some r =>
    rw [hr] at h
    simp only [Except.ok.injEq, Prod.mk.injEq] at h
    obtain ⟨h1, _⟩ := h
    rw [← h1]
    exact ⟨⟨r, rfl⟩, rfl, rfl⟩

lemma solver_eq_cases (x0 : Vec) (n_x n_eq n_ineq : ℕ)
    (func : Vec → Vec → Vec → IpsFunctionReturn) (linsolve : Mat → Vec → Vec)
    (max_iter : ℤ) (tol : ℚ) (verbose : ℤ) :
    (∃ e, interior_point_solver x0 n_x n_eq n_ineq func linsolve max_iter tol verbose
        = Except.error e)
    ∨ ∃ ev, interior_point_solver x0 n_x n_eq n_ineq func linsolve max_iter tol verbose
        = mkResult verbose (ipsLoop func linsolve n_x n_ineq tol verbose max_iter.toNat
            (initState x0 n_eq n_ineq ev) []) := by
  unfold interior_point_solver
  by_cases h1 : max_iter + 1 < 0
  · have hz : npZeros (max_iter + 1) = Except.error PyError.valueError := by
      unfold npZeros
      rw [if_pos h1]
    rw [hz, except_bind_error]
    exact Or.inl ⟨PyError.valueError, rfl⟩
  · have hz : npZeros (max_iter + 1)
        = Except.ok (List.replicate (max_iter + 1).toNat (0 : ℚ)) := by
      unfold npZeros
      rw [if_neg h1]
    rw [hz, except_bind_ok]
    by_cases h2 : (0 : ℕ) < (List.replicate (max_iter + 1).toNat (0 : ℚ)).length
    · have hs : npSet (List.replicate (max_iter + 1).toNat (0 : ℚ)) 0 oneE20
          = Except.ok ((List.replicate (max_iter + 1).toNat (0 : ℚ)).set 0 oneE20) := by
        unfold npSet
        rw [if_pos h2]
      rw [hs, except_bind_ok]
      exact Or.inr ⟨_, rfl⟩
    · have hs : npSet (List.replicate (max_iter + 1).toNat (0 : ℚ)) 0 oneE20
          = Except.error PyError.indexError := by
        unfold npSet
        rw [if_neg h2]
      rw [hs, except_bind_error]
      exact Or.inl ⟨PyError.indexError, rfl⟩

/-- C3: with at least one inequality constraint, (a) every iteration updates
the barrier parameter to `gamma = max(0.1 * (mu·z) / n_ineq, tol)` computed
from the just-updated `mu` and `z`; (b) after the first update — i.e. in the
state reached after `k ≥ 1` loop steps — `gamma ≥ tol`; and (c) the returned
solution's `gamma` is `≥ tol` as well: `gamma` is never driven below `tol`. -/
theorem ips_C3 (x0 : Vec) (n_x n_eq n_ineq : ℕ)
    (func : Vec → Vec → Vec → IpsFunctionReturn) (linsolve : Mat → Vec → Vec)
    (max_iter : ℤ) (tol : ℚ) (verbose : ℤ) (hn : 0 < n_ineq) :
    (∀ s : IpsState, (iterStep func linsolve n_x n_ineq tol verbose s).1.gamma
        = some (max ((0.1 : ℚ) * vdot (iterStep func linsolve n_x n_ineq tol verbose s).1.mu
            (iterStep func linsolve n_x n_ineq tol verbose s).1.z / (n_ineq : ℚ)) tol))
    ∧ (∀ (ev : Vec) (k : ℕ), 1 ≤ k →
        ∃ g, (ipsLoop func linsolve n_x n_ineq tol verbose k
            (initState x0 n_eq n_ineq ev) []).1.gamma = some g ∧ tol ≤ g)
    ∧ (∀ (sol : IpsSolution) (log : List Diag),
        interior_point_solver x0 n_x n_eq n_ineq func linsolve max_iter tol verbose
          = Except.ok (sol, log) → ∃ g, sol.gamma = some g ∧ tol ≤ g) := by
  have hne : n_ineq ≠ 0 := Nat.pos_iff_ne_zero.mp hn
  refine ⟨?_, ?_, ?_⟩
  · intro s
    rw [iterStep_gamma]
    unfold fdiv
    rw [if_neg hne]
    rfl
  · intro ev k hk
    obtain ⟨k', rfl⟩ : ∃ k', k = k' + 1 := ⟨k - 1, by omega⟩
    rw [ipsLoop_succ, if_neg (by
      rw [initState_converged]
      exact Bool.false_ne_true)]
    exact ipsLoop_pres func linsolve n_x n_ineq tol verbose
      (fun s => ∃ g, s.gamma = some g ∧ tol ≤ g)
      (fun s _ => iterStep_gamma_ge func linsolve n_x n_ineq tol verbose hne s) k' _ _
      (iterStep_gamma_ge func linsolve n_x n_ineq tol verbose hne _)
  · intro sol log hok
    rcases solver_eq_cases x0 n_x n_eq n_ineq func linsolve max_iter tol verbose with
      ⟨e, he⟩ | ⟨ev, heq⟩
    · rw [he] at hok
      simp at hok
    · rw [heq] at hok
      obtain ⟨⟨r, hr⟩, hgamma, _⟩ := mkResult_ok_inv verbose _ sol log hok
      have hinv := ipsLoop_pres func linsolve n_x n_ineq tol verbose
        (fun s => s.ret = none ∨ ∃ g, s.gamma = some g ∧ tol ≤ g)
        (fun s _ => Or.inr (iterStep_gamma_ge func linsolve n_x n_ineq tol verbose hne s))
        max_iter.toNat (initState x0 n_eq n_ineq ev) [] (Or.inl rfl)
      rcases hinv with hnone | ⟨g, hg, htol⟩
      · rw [hr] at hnone
        simp at hnone
      · exact ⟨g, by rw [hgamma, hg], htol⟩

/-- C3, witness: a concrete one-inequality run; after one iteration `gamma`
is a real value at least `tol`. -/
theorem ips_C3_witness :
    0 < 1
      ∧ ∃ g, (ipsLoop oneEval oneSolve 1 1 (1 / 1000000) 0 1
          (initState [0] 0 1 (initEv 1)) []).1.gamma = some g ∧ (1 / 1000000 : ℚ) ≤ g :=
  ⟨Nat.one_pos,
    (ips_C3 [0] 1 0 1 oneEval oneSolve 1 (1 / 1000000) 0 Nat.one_pos).2.1 (initEv 1) 1 le_rfl⟩

lemma iterStep_nan (func : Vec → Vec → Vec → IpsFunctionReturn)
    (linsolve : Mat → Vec → Vec) (n_x : ℕ) (tol : ℚ) (verbose : ℤ) (s : IpsState) :
    (iterStep func linsolve n_x 0 tol verbose s).1.gamma = none
      ∧ (iterStep func linsolve n_x 0 tol verbose s).1.converged = false := by
  have hg : (iterStep func linsolve n_x 0 tol verbose s).1.gamma = none := by
    rw [iterStep_gamma]
    unfold fdiv
    rw [if_pos rfl]
    rfl
  refine ⟨hg, ?_⟩
  rw [iterStep_conv, hg]
  rfl

/-- C4 (the code, evaluated at the failing input): with `n_ineq = 0` the
barrier update divides the empty complementarity product `0.0` by the int
`0`, producing NaN instead of the guarded, `tol`-driven value the claim
describes; consequently (a) after every iteration the state's `gamma` is NaN
and `converged` is false, and (b) whenever the call returns a solution at
all, that solution has `gamma = NaN` and `converged = false` — the solver
can never report convergence on a pure equality-constrained problem. -/
theorem ips_C4 (x0 : Vec) (n_x n_eq : ℕ)
    (func : Vec → Vec → Vec → IpsFunctionReturn) (linsolve : Mat → Vec → Vec)
    (max_iter : ℤ) (tol : ℚ) (verbose : ℤ) :
    (∀ (ev : Vec) (k : ℕ), 1 ≤ k →
      (ipsLoop func linsolve n_x 0 tol verbose k
          (initState x0 n_eq 0 ev) []).1.gamma = none
        ∧ (ipsLoop func linsolve n_x 0 tol verbose k
            (initState x0 n_eq 0 ev) []).1.converged = false)
    ∧ (∀ (sol : IpsSolution) (log : List Diag),
        interior_point_solver x0 n_x n_eq 0 func linsolve max_iter tol verbose
          = Except.ok (sol, log) → sol.gamma = none ∧ sol.converged = false) := by
  refine ⟨?_, ?_⟩
  · intro ev k hk
    obtain ⟨k', rfl⟩ : ∃ k', k = k' + 1 := ⟨k - 1, by omega⟩
    rw [ipsLoop_succ, if_neg (by
      rw [initState_converged]
      exact Bool.false_ne_true)]
    exact ipsLoop_pres func linsolve n_x 0 tol verbose
      (fun s => s.gamma = none ∧ s.converged = false)
      (fun s _ => iterStep_nan func linsolve n_x tol verbose s) k' _ _
      (iterStep_nan func linsolve n_x tol verbose _)
  · intro sol log hok
    rcases solver_eq_cases x0 n_x n_eq 0 func linsolve max_iter tol verbose with
      ⟨e, he⟩ | ⟨ev, heq⟩
    · rw [he] at hok
      simp at hok
    · rw [heq] at hok
      obtain ⟨⟨r, hr⟩, hgamma, hconv⟩ := mkResult_ok_inv verbose _ sol log hok
      have hinv := ipsLoop_pres func linsolve n_x 0 tol verbose
        (fun s => s.ret = none ∨ (s.gamma = none ∧ s.converged = false))
        (fun s _ => Or.inr (iterStep_nan func linsolve n_x tol verbose s))
        max_iter.toNat (initState x0 n_eq 0 ev) [] (Or.inl rfl)
      rcases hinv with hnone | ⟨hg, hc⟩
      · rw [hr] at hnone
        simp at hnone
      · exact ⟨by rw [hgamma, hg], by rw [hconv, hc]⟩

/-- C4, witness: one iteration of a concrete `n_ineq = 0` run leaves `gamma`
as NaN. -/
theorem ips_C4_witness :
    (1 : ℕ) ≤ 1
      ∧ (ipsLoop oneEval oneSolve 0 0 (1 / 1000000) 0 1
          (initState [] 0 0 (initEv 1)) []).1.gamma = none :=
  ⟨le_rfl, ((ips_C4 [] 0 0 oneEval oneSolve 1 (1 / 1000000) 0).1 (initEv 1) 1 le_rfl).1⟩

/-- C6: with `max_iter ≥ 1` the call always returns an `IpsSolution` (no
exception is raised for non-convergence), its iteration count is at most
`max_iter`, and its `converged` flag equals the final test
`error ≤ gamma` — so exhausting `max_iter` without `error ≤ gamma` yields
`converged = false`. -/
theorem ips_C6 (x0 : Vec) (n_x n_eq n_ineq : ℕ)
    (func : Vec → Vec → Vec → IpsFunctionReturn) (linsolve : Mat → Vec → Vec)
    (max_iter : ℤ) (tol : ℚ) (verbose : ℤ) (h : 1 ≤ max_iter) :
    ∃ sol log,
      interior_point_solver x0 n_x n_eq n_ineq func linsolve max_iter tol verbose
        = Except.ok (sol, log)
      ∧ sol.iterations ≤ max_iter
      ∧ sol.converged = pyLe sol.error sol.gamma := by
  obtain ⟨sol, log, h1, h2, h3, _⟩ :=
    solver_returns_ok x0 n_x n_eq n_ineq func linsolve max_iter tol verbose h
  exact ⟨sol, log, h1, h2, h3⟩

/-- C6, witness at a concrete one-inequality run with `max_iter = 1`. -/
theorem ips_C6_witness :
    (1 : ℤ) ≤ 1
      ∧ ∃ sol log,
        interior_point_solver [0] 1 0 1 oneEval oneSolve 1 (1 / 1000000) 0
          = Except.ok (sol, log)
        ∧ sol.iterations ≤ 1
        ∧ sol.converged = pyLe sol.error sol.gamma :=
  ⟨le_rfl, ips_C6 [0] 1 0 1 oneEval oneSolve 1 (1 / 1000000) 0 le_rfl⟩

/-- C7 (the code, evaluated at the failure scenario): the solver never
surfaces a solver-failure error for the linear solve — whatever vector the
sparse solve returns (scipy's `spsolve` returns a NaN-filled vector with
only a warning on a singular matrix), the call completes and returns an
ordinary `IpsSolution` whose `converged` flag is just the usual
`error ≤ gamma` test; a singular KKT system is therefore reported as
ordinary non-convergence, not as a distinct error. -/
theorem ips_C7 (x0 : Vec) (n_x n_eq n_ineq : ℕ)
    (func : Vec → Vec → Vec → IpsFunctionReturn) (max_iter : ℤ) (tol : ℚ)
    (verbose : ℤ) (h : 1 ≤ max_iter) :
    ∀ linsolve : Mat → Vec → Vec, ∃ sol log,
      interior_point_solver x0 n_x n_eq n_ineq func linsolve max_iter tol verbose
        = Except.ok (sol, log)
      ∧ sol.converged = pyLe sol.error sol.gamma := by
  intro linsolve
  obtain ⟨sol, log, h1, _, h3, _⟩ :=
    solver_returns_ok x0 n_x n_eq n_ineq func linsolve max_iter tol verbose h
  exact ⟨sol, log, h1, h3⟩

/-- C7, witness: even with the garbage oracle the call returns an ordinary
solution record. -/
theorem ips_C7_witness :
    (1 : ℤ) ≤ 1
      ∧ ∃ sol log,
        interior_point_solver [0] 1 0 1 oneEval junkSolve 1 (1 / 1000000) 0
          = Except.ok (sol, log)
        ∧ sol.converged = pyLe sol.error sol.gamma :=
  ⟨le_rfl, ips_C7 [0] 1 0 1 oneEval 1 (1 / 1000000) 0 le_rfl junkSolve⟩

lemma mkResult_map_fst (v1 v2 : ℤ) (p q : IpsState × List Diag) (h : p.1 = q.1) :
    (mkResult v1 p).map Prod.fst = (mkResult v2 q).map Prod.fst := by
  unfold mkResult
  rw [h]
  cases hr : q.1.ret with
  | none => simp [Except.map]
  | some r => simp [hr, Except.map]

/-- C8: two calls that differ only in `verbose` produce identical solution
records (same `x`, `error`, `gamma`, `lam`, `structs`, `converged`,
`iterations`, `error_evolution`) — or the identical Python error; `verbose`
only changes the emitted diagnostics. -/
theorem ips_C8 (x0 : Vec) (n_x n_eq n_ineq : ℕ)
    (func : Vec → Vec → Vec → IpsFunctionReturn) (linsolve : Mat → Vec → Vec)
    (max_iter : ℤ) (tol : ℚ) (v1 v2 : ℤ) :
    (interior_point_solver x0 n_x n_eq n_ineq func linsolve max_iter tol v1).map Prod.fst
      = (interior_point_solver x0 n_x n_eq n_ineq func linsolve max_iter tol v2).map Prod.fst := by
  unfold interior_point_solver
  cases hz : npZeros (max_iter + 1) with
  | error e => simp only [except_bind_error]
  | ok ev0 =>
    simp only [except_bind_ok]
    cases hs : npSet ev0 0 oneE20 with
    | error e => simp only [except_bind_error]
    | ok ev =>
      simp only [except_bind_ok]
      exact mkResult_map_fst v1 v2 _ _
        (ipsLoop_fst_verbose func linsolve n_x n_ineq tol v1 v2 max_iter.toNat
          (initState x0 n_eq n_ineq ev) [] [])

lemma getD_set_ne : ∀ (l : List Vec) (i j : ℕ) (v : Vec), i ≠ j →
    (l.set i v).getD j [] = l.getD j [] := by
  intro l
  induction l with
  | nil => intro i j v _; rfl
  | cons a l ih =>
    intro i j v hne
    cases i with
    | zero =>
      cases j with
      | zero => exact absurd rfl hne
      | succ j => rfl
    | succ i =>
      cases j with
      | zero => rfl
      | succ j =>
        show (l.set i v).getD j [] = l.getD j []
        exact ih i j v (fun hc => hne (by rw [hc]))

lemma heapAdd_frame (hh : Heap) (r j : ℕ) (d : Vec) (hne : j ≠ r) :
    heapGet (heapAddInPlace hh r d) j = heapGet hh j := by
  unfold heapGet heapAddInPlace
  exact getD_set_ne hh.cells r j _ (fun hc => hne hc.symm)

lemma xfold_frame : ∀ (steps : List Vec) (hh : Heap) (r j : ℕ), j ≠ r →
    heapGet (steps.foldl (fun hh d => heapAddInPlace hh r d) hh) j = heapGet hh j := by
  intro steps
  induction steps with
  | nil => intro hh r j _; rfl
  | cons d steps ih =>
    intro hh r j hne
    rw [List.foldl_cons]
    rw [ih _ _ _ hne, heapAdd_frame hh r j d hne]

/-- C9: the solver never mutates the caller's `x0` array. At the heap level,
`x = x0.copy()` allocates a fresh cell and every in-place update
`x += dx * alpha_p` writes only that fresh cell, so after any number of
iterations the cell behind `x0` holds exactly its original contents, and the
reference returned as the solution's `x` is distinct from `x0`'s. -/
theorem ips_C9 (h : Heap) (x0ref : ℕ) (steps : List Vec)
    (hr : x0ref < h.cells.length) :
    heapGet (xHeapRun h x0ref steps).1 x0ref = heapGet h x0ref
      ∧ (xHeapRun h x0ref steps).2 ≠ x0ref := by
  have hne : x0ref ≠ h.cells.length := ne_of_lt hr
  constructor
  · show heapGet (steps.foldl (fun hh d => heapAddInPlace hh h.cells.length d)
        (heapAllocCopy h x0ref).1) x0ref = heapGet h x0ref
    rw [xfold_frame steps (heapAllocCopy h x0ref).1 h.cells.length x0ref hne]
    show (h.cells ++ [heapGet h x0ref]).getD x0ref [] = h.cells.getD x0ref []
    rw [List.getD_eq_getElem?_getD, List.getD_eq_getElem?_getD,
      List.getElem?_append, if_pos hr]
  · exact fun hc => hne hc.symm

/-- C9, witness: a concrete one-cell heap with one update step. -/
theorem ips_C9_witness :
    0 < (Heap.mk [[1, 2]]).cells.length
      ∧ (heapGet (xHeapRun (Heap.mk [[1, 2]]) 0 [[3, 4]]).1 0
            = heapGet (Heap.mk [[1, 2]]) 0
          ∧ (xHeapRun (Heap.mk [[1, 2]]) 0 [[3, 4]]).2 ≠ 0) :=
  ⟨Nat.one_pos, ips_C9 (Heap.mk [[1, 2]]) 0 [[3, 4]] Nat.one_pos⟩

/-- C10, counterexample: at `max_iter = -1` (which satisfies the claim's
`max_iter ≤ 0`) the call fails with an IndexError at the pre-loop store
`error_evolution[0] = error` (the trace array `np.zeros(0)` is empty), not
with the unbound-local error at the return statement that the claim
asserts for every `max_iter ≤ 0`. -/
theorem ips_C10_cex :
    interior_point_solver [] 0 0 0 oneEval oneSolve (-1) 1 0
        = Except.error PyError.indexError
      ∧ PyError.indexError ≠ PyError.unboundLocal :=
  ⟨rfl, by decide⟩

/-- C10, amended: for `max_iter ≤ 0` the loop body never executes and no
solution record is ever returned, but the failure mode depends on the value:
at `max_iter = 0` the evaluator-result local `ret` is never assigned and the
return statement raises the unbound-local error, exactly as the claim says;
at `max_iter = -1` the pre-loop store `error_evolution[0] = 1e20` raises an
index error first; and for `max_iter ≤ -2` the allocation
`np.zeros(max_iter + 1)` raises a value error first. -/
theorem ips_C10_amended (x0 : Vec) (n_x n_eq n_ineq : ℕ)
    (func : Vec → Vec → Vec → IpsFunctionReturn) (linsolve : Mat → Vec → Vec)
    (tol : ℚ) (verbose : ℤ) (max_iter : ℤ) :
    (max_iter = 0 →
      interior_point_solver x0 n_x n_eq n_ineq func linsolve max_iter tol verbose
        = Except.error PyError.unboundLocal)
    ∧ (max_iter = -1 →
      interior_point_solver x0 n_x n_eq n_ineq func linsolve max_iter tol verbose
        = Except.error PyError.indexError)
    ∧ (max_iter ≤ -2 →
      interior_point_solver x0 n_x n_eq n_ineq func linsolve max_iter tol verbose
        = Except.error PyError.valueError) := by
  refine ⟨?_, ?_, ?_⟩
  · intro hm
    subst hm
    rfl
  · intro hm
    subst hm
    rfl
  · intro hm
    unfold interior_point_solver npZeros
    rw [if_pos (by omega)]
    rfl

/-- C10, witness for the amended statement: the `max_iter = 0` case at a
concrete call. -/
theorem ips_C10_witness :
    (0 : ℤ) = 0
      ∧ interior_point_solver [] 0 0 0 oneEval oneSolve 0 1 0
          = Except.error PyError.unboundLocal :=
  ⟨rfl, (ips_C10_amended [] 0 0 0 oneEval oneSolve 1 0 0).1 rfl⟩

end GridCalIPS
